import Mathlib

/-!
Verification of the shellx command-string tokenizer (`ParseCmd` in
`internal/utils/parser.go`) and its consumer (`NewCmdStr` / `NewCmds` in
`command.go`), embedded shallowly: the Go scan loop becomes a fold of a
step function over the rune list of the input, `strings.TrimSpace` becomes
an explicit trim with Go's `unicode.IsSpace` predicate, and the `panic`
paths of the constructors become `Except.error`.
-/

namespace ShellX

/-- Go's `unicode.IsSpace`: the Unicode White_Space property, as the Go
standard library defines it ('\t', '\n', '\v', '\f', '\r', ' ', NEL,
NBSP, and the non-Latin-1 White_Space code points). -/
def isGoSpace (c : Char) : Bool :=
  c = ' ' || c = '\t' || c = '\n' || c = '\x0b' || c = '\x0c' || c = '\r' ||
  c = '\x85' || c = '\xa0' || c = '\u1680' ||
  ('\u2000' ≤ c && c ≤ '\u200a') ||
  c = '\u2028' || c = '\u2029' || c = '\u202f' || c = '\u205f' || c = '\u3000'

/-- `strings.TrimSpace` on the rune list: drop leading and trailing
characters satisfying `isGoSpace`. -/
def trimSpaceChars (l : List Char) : List Char :=
  ((l.dropWhile isGoSpace).reverse.dropWhile isGoSpace).reverse

/-- The backtick quote character (code point 96). -/
def backquote : Char := Char.ofNat 96

/-- The three quote characters `ParseCmd` treats specially:
double quote, single quote, backtick (parser.go line 40). -/
def isQuoteChar (c : Char) : Bool := c = '"' || c = '\'' || c = backquote

/-- The scanner state of `ParseCmd`'s loop (parser.go lines 30-36):
completed words, the word being accumulated, whether a quote is open,
which character opened it, and whether the current word has contained a
quote. -/
structure ScanState where
  result : List String
  current : List Char
  inQuotes : Bool
  quote : Char
  hadQuotes : Bool
deriving DecidableEq, Repr

/-- One iteration of `ParseCmd`'s rune loop (parser.go lines 39-63). -/
def scanStep (st : ScanState) (r : Char) : ScanState :=
  if isQuoteChar r then
    if !st.inQuotes then
      { st with inQuotes := true, quote := r, hadQuotes := true }
    else if r = st.quote then
      { st with inQuotes := false }
    else
      { st with current := st.current ++ [r] }
  else if (r = ' ' || r = '\t') && !st.inQuotes then
    if st.current.length > 0 || st.hadQuotes then
      { st with result := st.result ++ [String.mk st.current],
                current := [], hadQuotes := false }
    else
      st
  else
    { st with current := st.current ++ [r] }

/-- The state `ParseCmd` starts its loop from: everything empty, not in
quotes (Go's zero values; `quote` is the zero rune, which the loop never
reads while `inQuotes` is false — we use `' '` as an arbitrary value). -/
def initState : ScanState :=
  { result := [], current := [], inQuotes := false, quote := ' ', hadQuotes := false }

/-- The code after `ParseCmd`'s loop (parser.go lines 65-75): flush the
last word if it has content or had quotes, then discard everything if a
quote is still open. -/
def finalize (st : ScanState) : List String :=
  let res :=
    if st.current.length > 0 || st.hadQuotes then st.result ++ [String.mk st.current]
    else st.result
  if st.inQuotes then [] else res

/-- `ParseCmd` (parser.go lines 23-76): trim surrounding whitespace,
return `[]` for the empty remainder, otherwise scan rune by rune and
finalize. -/
def ParseCmd (cmdStr : String) : List String :=
  if trimSpaceChars cmdStr.data = [] then []
  else finalize ((trimSpaceChars cmdStr.data).foldl scanStep initState)

/-- The fields of the `Command` object that its constructors set
(command.go): executable name, argument list, raw command string. -/
structure Command where
  name : String
  args : List String
  raw : String
deriving DecidableEq, Repr

/-- `NewCmd` (command.go lines 320-332), with the `panic` on an empty
name embedded as `Except.error`. -/
def NewCmd (name : String) (args : List String) : Except String Command :=
  if name = "" then Except.error "name cannot be empty"
  else Except.ok { name := name, args := args, raw := "" }

/-- `NewCmds` (command.go lines 341-353), with the `panic` on an empty
slice embedded as `Except.error`: the first element is the executable
name, the rest the arguments. -/
def NewCmds (cmdArgs : List String) : Except String Command :=
  match cmdArgs with
  | [] => Except.error "cmdArgs cannot be empty"
  | n :: rest => NewCmd n rest

/-- `NewCmdStr` (command.go lines 355-367): parse the string, build the
command from the resulting slice, and record the raw string. -/
def NewCmdStr (cmdStr : String) : Except String Command :=
  match NewCmds (ParseCmd cmdStr) with
  | Except.error e => Except.error e
  | Except.ok c => Except.ok { c with raw := cmdStr }

/-- A character with no special meaning to the scanner: not one of the
three quote characters and not whitespace. -/
def plainChar (c : Char) : Bool := !isQuoteChar c && !isGoSpace c

/-- Joining a word list with a single space, the join of the restricted
round-trip law. -/
def joinSpace : List String → String
  | [] => ""
  | [w] => w
  | w :: ws => w ++ " " ++ joinSpace ws

/-- Dropping while a predicate holds drops nothing when the head does not
satisfy it. -/
theorem dropWhile_head_not (p : Char → Bool) (l : List Char)
    (h : ∀ c, l.head? = some c → p c = false) : l.dropWhile p = l := by
  cases l with
  | nil => rfl
  | cons c t =>
    have hc := h c rfl
    simp [List.dropWhile_cons, hc]

/-- Trimming changes nothing when neither end of the list is whitespace. -/
theorem trimSpaceChars_eq_self (l : List Char)
    (h1 : ∀ c, l.head? = some c → isGoSpace c = false)
    (h2 : ∀ c, l.getLast? = some c → isGoSpace c = false) :
    trimSpaceChars l = l := by
  unfold trimSpaceChars
  rw [dropWhile_head_not _ _ h1, dropWhile_head_not, List.reverse_reverse]
  intro c hc
  rw [List.head?_reverse] at hc
  exact h2 c hc

/-- A whitespace-only input (in Go's `unicode.IsSpace` sense) parses to
the empty sequence: the trim removes everything. -/
theorem ParseCmd_of_all_space (s : String) (h : ∀ c ∈ s.data, isGoSpace c = true) :
    ParseCmd s = [] := by
  have hd : s.data.dropWhile isGoSpace = [] := by
    rw [List.dropWhile_eq_nil_iff]
    exact h
  unfold ParseCmd trimSpaceChars
  rw [hd]
  simp

/-- C1: whenever the scan of the trimmed input ends with a quote still
open (`inQuotes` true after the fold), `ParseCmd` returns the empty
sequence, discarding every word accumulated before the unclosed quote;
no partial result is returned for such malformed input. -/
theorem ParseCmd_unclosed_quote_empty (s : String)
    (h : ((trimSpaceChars s.data).foldl scanStep initState).inQuotes = true) :
    ParseCmd s = [] := by
  unfold ParseCmd
  by_cases hl : trimSpaceChars s.data = []
  · simp [hl]
  · simp only [if_neg hl, finalize, h, if_true]

/-- Witness for C1 at the concrete malformed input `echo "hello`. -/
theorem ParseCmd_unclosed_quote_empty_witness :
    ParseCmd "echo \"hello" = [] :=
  ParseCmd_unclosed_quote_empty "echo \"hello" (by decide)

/-- C2: a closing quote leaves the scanner state unchanged except for
`inQuotes` — in particular it never flushes the word being built — so
adjacent quoted and bare segments concatenate: `hello"world"test`
tokenizes to the single word `helloworldtest` and `""hello""` to the
single word `hello`. -/
theorem ParseCmd_close_quote_not_word_end :
    (∀ (st : ScanState) (r : Char), st.inQuotes = true → isQuoteChar r = true →
        r = st.quote → scanStep st r = { st with inQuotes := false }) ∧
    ParseCmd "hello\"world\"test" = ["helloworldtest"] ∧
    ParseCmd "\"\"hello\"\"" = ["hello"] := by
  refine ⟨?_, by decide, by decide⟩
  intro st r hin hq hr
  subst hr
  simp [scanStep, hq, hin]

/-- C3: while a quote is open, a quote character different from the
opening one is appended to the current word as literal content and
changes nothing else — in particular the quote state stays open — so
`echo "He said 'hello'"` tokenizes to `[echo, He said 'hello']`. -/
theorem ParseCmd_mismatched_quote_literal :
    (∀ (st : ScanState) (r : Char), st.inQuotes = true → isQuoteChar r = true →
        r ≠ st.quote → scanStep st r = { st with current := st.current ++ [r] }) ∧
    ParseCmd "echo \"He said 'hello'\"" = ["echo", "He said 'hello'"] := by
  refine ⟨?_, by decide⟩
  intro st r hin hq hr
  simp [scanStep, hq, hin, hr]

/-- C4: a word whose segment was an opened-and-closed quote with no
content is still emitted as an empty-string argument: with `hadQuotes`
set and an empty current word, both the whitespace flush and the final
flush append `""` to the result, and `echo ""` tokenizes to
`[echo, ""]`. -/
theorem ParseCmd_empty_quoted_word_emitted :
    (∀ (st : ScanState) (r : Char), (r = ' ' ∨ r = '\t') → st.inQuotes = false →
        st.current = [] → st.hadQuotes = true →
        (scanStep st r).result = st.result ++ [""]) ∧
    (∀ st : ScanState, st.inQuotes = false → st.current = [] → st.hadQuotes = true →
        finalize st = st.result ++ [""]) ∧
    ParseCmd "echo \"\"" = ["echo", ""] := by
  refine ⟨?_, ?_, by decide⟩
  · intro st r hr hin hcur hq
    rcases hr with hr | hr <;>
      simp [scanStep, hr, isQuoteChar, backquote, hin, hcur, hq, String.mk]
  · intro st hin hcur hq
    simp [finalize, hin, hcur, hq, String.mk]

/-- C5: a string consisting only of spaces and tabs (the empty string
included) tokenizes to the empty sequence. -/
theorem ParseCmd_blank_input_empty (s : String)
    (h : ∀ c ∈ s.data, c = ' ' ∨ c = '\t') :
    ParseCmd s = [] := by
  apply ParseCmd_of_all_space
  intro c hc
  rcases h c hc with h1 | h1 <;> simp [h1, isGoSpace]

/-- Witness for C5 at the concrete input of two spaces and a tab. -/
theorem ParseCmd_blank_input_empty_witness :
    ParseCmd "  \t" = [] :=
  ParseCmd_blank_input_empty "  \t" (by decide)

/-- C6: an unquoted space or tab seen while the current word is empty
and has contained no quotes leaves the scanner state unchanged —
nothing is emitted — so runs of whitespace between words act as a
single separator and produce no empty-string word:
`a  	 b` tokenizes to `[a, b]`. -/
theorem ParseCmd_whitespace_collapse :
    (∀ (st : ScanState) (r : Char), (r = ' ' ∨ r = '\t') → st.inQuotes = false →
        st.current = [] → st.hadQuotes = false → scanStep st r = st) ∧
    ParseCmd "a  \t  b" = ["a", "b"] := by
  refine ⟨?_, by decide⟩
  intro st r hr hin hcur hq
  rcases hr with hr | hr <;>
    simp [scanStep, hr, isQuoteChar, backquote, hin, hcur, hq]

/-- C7: the backslash has no special meaning: every occurrence is
appended to the current word literally, whatever the scanner state, and
the worked example passes `\;` through unchanged. -/
theorem ParseCmd_backslash_literal :
    (∀ st : ScanState, scanStep st '\\' = { st with current := st.current ++ ['\\'] }) ∧
    ParseCmd "find . -name \"*.go\" -exec grep \"pattern\" {} \\;" =
      ["find", ".", "-name", "*.go", "-exec", "grep", "pattern", "{}", "\\;"] := by
  refine ⟨?_, by decide⟩
  intro st
  simp [scanStep, isQuoteChar, backquote]

/-- C9: a non-empty input that tokenizes to the empty sequence makes
`NewCmdStr` refuse to construct a command: the constructor surfaces the
validation error (Go's `panic("cmdArgs cannot be empty")` in `NewCmds`,
embedded as `Except.error`) instead of producing a `Command`. -/
theorem NewCmdStr_empty_parse_rejected (s : String) (hs : s ≠ "")
    (h : ParseCmd s = []) :
    NewCmdStr s = Except.error "cmdArgs cannot be empty" := by
  unfold NewCmdStr
  rw [h]
  rfl

/-- Witness for C9 at the concrete input `"a` (an unclosed quote, a
non-empty string whose parse is empty). -/
theorem NewCmdStr_empty_parse_rejected_witness :
    NewCmdStr "\"a" = Except.error "cmdArgs cannot be empty" :=
  NewCmdStr_empty_parse_rejected "\"a" (by decide) (by decide)

/-- C10: the trim step removes leading and trailing newlines and
carriage returns (they satisfy Go's whitespace predicate), an input of
only newlines or carriage returns tokenizes to the empty sequence, yet
an interior newline is not a word separator: it is appended literally. -/
theorem ParseCmd_trim_unicode_space :
    isGoSpace '\n' = true ∧ isGoSpace '\r' = true ∧
    (∀ s : String, (∀ c ∈ s.data, c = '\n' ∨ c = '\r') → ParseCmd s = []) ∧
    ParseCmd "\nls\n" = ["ls"] ∧
    ParseCmd "a\nb" = ["a\nb"] := by
  refine ⟨by decide, by decide, ?_, by decide, by decide⟩
  intro s h
  apply ParseCmd_of_all_space
  intro c hc
  rcases h c hc with h1 | h1 <;> simp [h1, isGoSpace]

/-- A plain character is not a quote character. -/
theorem plainChar_not_quote (c : Char) (h : plainChar c = true) : isQuoteChar c = false := by
  revert h
  unfold plainChar
  cases isQuoteChar c <;> simp

/-- A plain character is not whitespace. -/
theorem plainChar_not_space (c : Char) (h : plainChar c = true) : isGoSpace c = false := by
  revert h
  unfold plainChar
  cases isGoSpace c <;> simp

/-- Scanning a run of plain characters outside quotes appends the run to
the current word and changes nothing else. -/
theorem foldl_scanStep_plain (l : List Char) :
    ∀ st : ScanState, (∀ c ∈ l, plainChar c = true) → st.inQuotes = false →
      l.foldl scanStep st = { st with current := st.current ++ l } := by
  induction l with
  | nil => intro st _ _; simp
  | cons c t ih =>
    intro st h hin
    have hc := h c (List.mem_cons_self c t)
    have hq := plainChar_not_quote c hc
    have hsp := plainChar_not_space c hc
    have hcs : c ≠ ' ' := by
      intro he
      rw [he] at hsp
      simp [isGoSpace] at hsp
    have hct : c ≠ '\t' := by
      intro he
      rw [he] at hsp
      simp [isGoSpace] at hsp
    have hstep : scanStep st c = { st with current := st.current ++ [c] } := by
      simp [scanStep, hq, hcs, hct]
    rw [List.foldl_cons, hstep,
      ih { st with current := st.current ++ [c] }
        (fun x hx => h x (List.mem_cons_of_mem _ hx)) hin]
    simp

/-- A space outside quotes flushes a non-empty current word. -/
theorem scanStep_space_flush (st : ScanState) (hin : st.inQuotes = false)
    (hne : st.current ≠ []) :
    scanStep st ' ' =
      { st with result := st.result ++ [String.mk st.current],
                current := [], hadQuotes := false } := by
  have hlen : st.current.length > 0 := List.length_pos.mpr hne
  have hq : isQuoteChar ' ' = false := by decide
  simp [scanStep, hq, hin, hlen]

/-- The character list of a two-or-more-word join: first word, a space,
then the join of the rest. -/
theorem joinSpace_cons_cons_data (w w2 : String) (t : List String) :
    (joinSpace (w :: w2 :: t)).data = w.data ++ ' ' :: (joinSpace (w2 :: t)).data := by
  show (w ++ " " ++ joinSpace (w2 :: t)).data = _
  rw [String.data_append, String.data_append, List.append_assoc]
  rfl

/-- Scanning the join of non-empty all-plain words from a fresh word
state and finalizing appends exactly those words to the result. -/
theorem finalize_foldl_joinSpace (ws : List String) :
    ∀ (w : String) (res : List String) (q : Char),
      (∀ u ∈ w :: ws, u.data ≠ [] ∧ ∀ c ∈ u.data, plainChar c = true) →
      finalize ((joinSpace (w :: ws)).data.foldl scanStep
        { result := res, current := [], inQuotes := false, quote := q, hadQuotes := false }) =
        res ++ w :: ws := by
  induction ws with
  | nil =>
    intro w res q h
    have hw := h w (List.mem_cons_self w [])
    show finalize (w.data.foldl scanStep _) = _
    rw [foldl_scanStep_plain w.data _ hw.2 rfl]
    have hlen : w.data.length > 0 := List.length_pos.mpr hw.1
    have hlen0 : ¬ w.length = 0 := by
      show ¬ w.data.length = 0
      omega
    simp [finalize, hlen, hlen0]
  | cons w2 t ih =>
    intro w res q h
    have hw := h w (List.mem_cons_self w _)
    have h' : ∀ u ∈ w2 :: t, u.data ≠ [] ∧ ∀ c ∈ u.data, plainChar c = true :=
      fun u hu => h u (List.mem_cons_of_mem _ hu)
    rw [joinSpace_cons_cons_data, List.foldl_append,
      foldl_scanStep_plain w.data _ hw.2 rfl, List.foldl_cons,
      scanStep_space_flush _ rfl (by simpa using hw.1)]
    exact (ih w2 (res ++ [w]) q h').trans (by simp)

/-- The join of non-empty all-plain words is non-empty and neither of
its ends is whitespace. -/
theorem joinSpace_ends_plain (ws : List String) :
    ∀ w : String,
      (∀ u ∈ w :: ws, u.data ≠ [] ∧ ∀ c ∈ u.data, plainChar c = true) →
      (joinSpace (w :: ws)).data ≠ [] ∧
      (∀ c, (joinSpace (w :: ws)).data.head? = some c → isGoSpace c = false) ∧
      (∀ c, (joinSpace (w :: ws)).data.getLast? = some c → isGoSpace c = false) := by
  induction ws with
  | nil =>
    intro w h
    have hw := h w (List.mem_cons_self w [])
    simp only [show joinSpace [w] = w from rfl]
    refine ⟨hw.1, ?_, ?_⟩
    · intro c hc
      exact plainChar_not_space c (hw.2 c (List.mem_of_mem_head? (by simp [hc])))
    · intro c hc
      exact plainChar_not_space c (hw.2 c (List.mem_of_mem_getLast? (by simp [hc])))
  | cons w2 t ih =>
    intro w h
    have hw := h w (List.mem_cons_self w _)
    have h' : ∀ u ∈ w2 :: t, u.data ≠ [] ∧ ∀ c ∈ u.data, plainChar c = true :=
      fun u hu => h u (List.mem_cons_of_mem _ hu)
    obtain ⟨hne, _, hlast⟩ := ih w2 h'
    rw [joinSpace_cons_cons_data]
    refine ⟨by simp, ?_, ?_⟩
    · intro c hc
      obtain ⟨c0, t0, hw0⟩ := List.exists_cons_of_ne_nil hw.1
      have hm : c0 ∈ w.data := by
        rw [hw0]
        exact List.mem_cons_self c0 t0
      have hceq : c0 = c := by
        rw [hw0, List.cons_append, List.head?_cons] at hc
        exact Option.some.inj hc
      rw [← hceq]
      exact plainChar_not_space c0 (hw.2 c0 hm)
    · intro c hc
      rw [List.getLast?_append_of_ne_nil _ (by simp),
        show (' ' :: (joinSpace (w2 :: t)).data) = [' '] ++ (joinSpace (w2 :: t)).data from rfl,
        List.getLast?_append_of_ne_nil _ hne] at hc
      exact hlast c hc

/-- Parsing the single-space join of non-empty all-plain words returns
exactly those words. -/
theorem ParseCmd_joinSpace (ws : List String)
    (h : ∀ w ∈ ws, w.data ≠ [] ∧ ∀ c ∈ w.data, plainChar c = true) :
    ParseCmd (joinSpace ws) = ws := by
  cases ws with
  | nil => rfl
  | cons w t =>
    obtain ⟨hne, hhead, hlast⟩ := joinSpace_ends_plain t w h
    have htrim : trimSpaceChars (joinSpace (w :: t)).data = (joinSpace (w :: t)).data :=
      trimSpaceChars_eq_self _ hhead hlast
    unfold ParseCmd
    rw [htrim, if_neg hne]
    exact (finalize_foldl_joinSpace t w [] ' ' h).trans (by simp)

/-- C8 counterexample: three well-formed inputs whose output words
contain no embedded spaces yet fail the round trip as the claim states
it — an empty quoted word, a word holding a quote character, and a word
holding a tab. -/
theorem ParseCmd_roundtrip_counterexample :
    (ParseCmd "\"\"" = [""] ∧
      ParseCmd (joinSpace (ParseCmd "\"\"")) ≠ ParseCmd "\"\"") ∧
    (ParseCmd "\"a'b\"" = ["a'b"] ∧
      ParseCmd (joinSpace (ParseCmd "\"a'b\"")) ≠ ParseCmd "\"a'b\"") ∧
    (ParseCmd "\"x\ty\"" = ["x\ty"] ∧
      ParseCmd (joinSpace (ParseCmd "\"x\ty\"")) ≠ ParseCmd "\"x\ty\"") := by
  decide

/-- C8 (amended): for every input whose output words are all non-empty
and contain no quote characters and no whitespace characters, joining
the words with a single space and re-tokenizing reproduces the same
word sequence. -/
theorem ParseCmd_roundtrip (s : String)
    (h : ∀ w ∈ ParseCmd s, w ≠ "" ∧
      ∀ c ∈ w.data, isQuoteChar c = false ∧ isGoSpace c = false) :
    ParseCmd (joinSpace (ParseCmd s)) = ParseCmd s := by
  apply ParseCmd_joinSpace
  intro w hw
  obtain ⟨h1, h2⟩ := h w hw
  refine ⟨?_, ?_⟩
  · intro hd
    exact h1 (String.ext (show w.data = String.data "" from hd))
  · intro c hc
    unfold plainChar
    simp [(h2 c hc).1, (h2 c hc).2]

/-- Witness for C8 (amended) at the concrete input `ls -la`. -/
theorem ParseCmd_roundtrip_witness :
    ParseCmd (joinSpace (ParseCmd "ls -la")) = ParseCmd "ls -la" :=
  ParseCmd_roundtrip "ls -la" (by decide)

end ShellX
